import Mathlib

/-!
# To-do list engine (Level 2, "Build a To-Do List App with JavaScript", script.js)

A shallow embedding of the state, persistence and view logic of the to-do
application, followed by the properties proved about it.

Conventions of the embedding.

* JavaScript strings are `String` values (sequences of Unicode scalar values);
  strings holding an unpaired surrogate are outside the model.
* The module variables `tasks`, `currentFilter` and the browser `localStorage`
  are the three fields of `State`; every function of the script becomes a
  function from the state before the call to the state after it.
* `Math.random()` and `Date.now()` are inputs: `addTask` receives the values
  read during the call in an `AddEnv`. Timestamps are natural numbers.
* `render()` only reads the state (through `visibleTasks`) and writes to the
  page, so it leaves `State` untouched and is not modelled; the same holds for
  the event listeners, which only call the functions below.
* `JSON.stringify`, `JSON.parse` and `String.prototype.trim` are platform
  functions; they are modelled following ECMA-262 and ECMA-404.
  `JSON.stringify` is modelled on the argument the script passes, a `Task[]`.
* `localStorage.getItem` and `setItem` always succeed; the one exception in the
  model is the `SyntaxError` of `JSON.parse`.
-/

namespace Todo

/-! ## Strings -/

/-- ECMAScript `WhiteSpace` and `LineTerminator` code points: what `trim` strips. -/
def isWhiteSpace (c : Char) : Bool :=
  let n := c.toNat
  n = 0x09 || n = 0x0A || n = 0x0B || n = 0x0C || n = 0x0D || n = 0x20 || n = 0xA0
    || n = 0x1680 || (0x2000 ≤ n && n ≤ 0x200A) || n = 0x2028 || n = 0x2029
    || n = 0x202F || n = 0x205F || n = 0x3000 || n = 0xFEFF

/-- Code points of `String.prototype.trimStart`. -/
def trimStart (cs : List Char) : List Char := cs.dropWhile isWhiteSpace

/-- Code points of `String.prototype.trimEnd`. -/
def trimEnd (cs : List Char) : List Char := (cs.reverse.dropWhile isWhiteSpace).reverse

/-- `String.prototype.trim`. -/
def trim (s : String) : String := ⟨trimEnd (trimStart s.data)⟩

/-- `s.slice(a, b)` for `0 ≤ a ≤ b`. -/
def slice (s : String) (a b : Nat) : String := ⟨(s.data.drop a).take (b - a)⟩

/-- Digit `d` of a radix up to 36: `0`-`9`, then `a`-`z`. -/
def digitChar (d : Nat) : Char :=
  if d < 10 then Char.ofNat (48 + d) else Char.ofNat (87 + d)

/-- Worker of `toRadix`: most significant digit first, `acc` holds the digits already produced. -/
def toRadixAux (b : Nat) : Nat → Nat → List Char → List Char
  | 0, _, acc => acc
  | fuel + 1, n, acc =>
    if n < b then digitChar n :: acc
    else toRadixAux b fuel (n / b) (digitChar (n % b) :: acc)

/-- `Number.prototype.toString(b)` of a non-negative integer `n`. -/
def toRadix (b n : Nat) : List Char := toRadixAux b (n + 1) n []

/-! ## Data model -/

/-- The `Task` typedef: `{ id: string, text: string, completed: boolean, createdAt: number }`.
`createdAt` holds a `Date.now()` reading, an integer number of milliseconds. -/
structure Task where
  id : String
  text : String
  completed : Bool
  createdAt : Nat
  deriving DecidableEq, Repr

/-- Browser `localStorage`: the key/value entries present. -/
abbrev Storage := List (String × String)

/-- `localStorage.getItem(key)`: `none` stands for `null`. -/
def Storage.getItem : Storage → String → Option String
  | [], _ => none
  | (k, v) :: rest, key => if k = key then some v else Storage.getItem rest key

/-- `localStorage.setItem(key, value)`. -/
def Storage.setItem : Storage → String → String → Storage
  | [], key, value => [(key, value)]
  | (k, v) :: rest, key, value =>
    if k = key then (key, value) :: rest else (k, v) :: Storage.setItem rest key value

def STORAGE_KEY : String := "todo.tasks.v1"

def FILTER_STORAGE_KEY : String := "todo.filter.v1"

/-! ## JSON text -/

abbrev dquote : Char := Char.ofNat 34
abbrev backslash : Char := Char.ofNat 92
abbrev lbrace : Char := Char.ofNat 123
abbrev rbrace : Char := Char.ofNat 125
abbrev lbrack : Char := Char.ofNat 91
abbrev rbrack : Char := Char.ofNat 93
abbrev comma : Char := Char.ofNat 44
abbrev colon : Char := Char.ofNat 58

/-- Hexadecimal digit `d < 16`, lower case, as `JSON.stringify` writes it. -/
def hexDigit (d : Nat) : Char := digitChar d

/-- `QuoteJSONString` on one code point: the two-character escapes, `\u00xx` for the
remaining control characters, everything else verbatim. -/
def escapeChar (c : Char) : List Char :=
  if c = dquote then [backslash, dquote]
  else if c = backslash then [backslash, backslash]
  else if c = Char.ofNat 8 then [backslash, 'b']
  else if c = Char.ofNat 12 then [backslash, 'f']
  else if c = Char.ofNat 10 then [backslash, 'n']
  else if c = Char.ofNat 13 then [backslash, 'r']
  else if c = Char.ofNat 9 then [backslash, 't']
  else if c.toNat < 32 then
    [backslash, 'u', '0', '0', hexDigit (c.toNat / 16), hexDigit (c.toNat % 16)]
  else [c]

/-- Body of a quoted JSON string. -/
def escapeChars : List Char → List Char
  | [] => []
  | c :: cs => escapeChar c ++ escapeChars cs

/-- `QuoteJSONString`: `JSON.stringify` of a string. -/
def quoteChars (s : String) : List Char := dquote :: (escapeChars s.data ++ [dquote])

/-- `JSON.stringify` of one task object: the four properties in creation order. -/
def stringifyTask (t : Task) : List Char :=
  [lbrace] ++ quoteChars "id" ++ [colon] ++ quoteChars t.id
    ++ [comma] ++ quoteChars "text" ++ [colon] ++ quoteChars t.text
    ++ [comma] ++ quoteChars "completed" ++ [colon]
    ++ (if t.completed then "true".data else "false".data)
    ++ [comma] ++ quoteChars "createdAt" ++ [colon] ++ toRadix 10 t.createdAt
    ++ [rbrace]

/-- Elements of a non-empty array, comma separated, closing bracket included. -/
def stringifyElems : Task → List Task → List Char
  | t, [] => stringifyTask t ++ [rbrack]
  | t, u :: us => stringifyTask t ++ comma :: stringifyElems u us

/-- `JSON.stringify(tasks)` for `tasks : Task[]`, as a list of code points. -/
def stringifyChars : List Task → List Char
  | [] => [lbrack, rbrack]
  | t :: ts => lbrack :: stringifyElems t ts

/-- `JSON.stringify(tasks)` for `tasks : Task[]`. -/
def stringify (ts : List Task) : String := ⟨stringifyChars ts⟩

/-- A value `JSON.parse` can return. A number is kept exactly, as
`mantissa * 10 ^ exponent` (the rounding to a double is not modelled); an object is
the list of its own properties in creation order. -/
inductive Json where
  | null
  | bool (b : Bool)
  | num (mantissa : Int) (exponent : Int)
  | str (s : String)
  | arr (elems : List Json)
  | obj (members : List (String × Json))

/-- The only exception `JSON.parse` throws on a string argument. -/
inductive JsError where
  | syntaxError
  deriving DecidableEq, Repr

/-- JSON insignificant whitespace: space, tab, line feed, carriage return. -/
def isJsonWs (c : Char) : Bool :=
  c = Char.ofNat 32 || c = Char.ofNat 9 || c = Char.ofNat 10 || c = Char.ofNat 13

def skipWs (cs : List Char) : List Char := cs.dropWhile isJsonWs

/-- Value of a hexadecimal digit, either case. -/
def hexVal (c : Char) : Option Nat :=
  let n := c.toNat
  if 48 ≤ n ∧ n ≤ 57 then some (n - 48)
  else if 97 ≤ n ∧ n ≤ 102 then some (n - 87)
  else if 65 ≤ n ∧ n ≤ 70 then some (n - 55)
  else none

/-- The code unit named by the four digits of a `\uXXXX` escape. -/
def hex4 (a b c d : Char) : Option Nat :=
  match hexVal a, hexVal b, hexVal c, hexVal d with
  | some x, some y, some z, some w => some (((x * 16 + y) * 16 + z) * 16 + w)
  | _, _, _, _ => none

/-- The code unit of a two-character escape `\e`. -/
def unescape (e : Char) : Option Nat :=
  if e = dquote then some 34
  else if e = backslash then some 92
  else if e = '/' then some 47
  else if e = 'b' then some 8
  else if e = 'f' then some 12
  else if e = 'n' then some 10
  else if e = 'r' then some 13
  else if e = 't' then some 9
  else none

/-- Reads a string body up to its closing quote. Returns the code points read (an
escape contributes one UTF-16 code unit) and the text after the closing quote. -/
def parseStringUnits : List Char → Option (List Nat × List Char)
  | [] => none
  | c :: cs =>
    if c = dquote then some ([], cs)
    else if c = backslash then
      match cs with
      | [] => none
      | e :: cs1 =>
        if e = 'u' then
          match cs1 with
          | a :: b :: c2 :: d :: cs2 =>
            match hex4 a b c2 d with
            | none => none
            | some u =>
              match parseStringUnits cs2 with
              | none => none
              | some (us, rest) => some (u :: us, rest)
          | _ => none
        else
          match unescape e with
          | none => none
          | some u =>
            match parseStringUnits cs1 with
            | none => none
            | some (us, rest) => some (u :: us, rest)
    else if c.toNat < 32 then none
    else
      match parseStringUnits cs with
      | none => none
      | some (us, rest) => some (c.toNat :: us, rest)

def isHighSurrogate (u : Nat) : Bool := 0xD800 ≤ u && u ≤ 0xDBFF

def isLowSurrogate (u : Nat) : Bool := 0xDC00 ≤ u && u ≤ 0xDFFF

/-- UTF-16 decoding of the units read by `parseStringUnits`: a surrogate pair is
one code point; an unpaired surrogate, which `String` cannot hold, becomes U+FFFD. -/
def unitsToChars : List Nat → List Char
  | [] => []
  | u :: rest =>
    if isHighSurrogate u then
      match rest with
      | [] => [Char.ofNat 0xFFFD]
      | v :: rest1 =>
        if isLowSurrogate v then
          Char.ofNat (0x10000 + (u - 0xD800) * 0x400 + (v - 0xDC00)) :: unitsToChars rest1
        else Char.ofNat 0xFFFD :: unitsToChars (v :: rest1)
    else if isLowSurrogate u then Char.ofNat 0xFFFD :: unitsToChars rest
    else Char.ofNat u :: unitsToChars rest

/-- Reads a JSON string whose opening quote has been consumed. -/
def parseString (cs : List Char) : Option (String × List Char) :=
  match parseStringUnits cs with
  | none => none
  | some (us, rest) => some (⟨unitsToChars us⟩, rest)

def isDigit (c : Char) : Bool := 48 ≤ c.toNat && c.toNat ≤ 57

/-- Value of a list of decimal digits, most significant first. -/
def digitsToNat (ds : List Char) : Nat :=
  ds.foldl (fun acc c => acc * 10 + (c.toNat - 48)) 0

/-- Optional fraction part of a number: its digits and the remaining text. -/
def parseFrac : List Char → Option (List Char × List Char)
  | [] => some ([], [])
  | c :: cs =>
    if c = '.' then
      if cs.takeWhile isDigit = [] then none
      else some (cs.takeWhile isDigit, cs.dropWhile isDigit)
    else some ([], c :: cs)

/-- Digits of an exponent, after the optional sign. -/
def parseExpDigits (negative : Bool) (cs : List Char) : Option (Int × List Char) :=
  if cs.takeWhile isDigit = [] then none
  else
    let e : Int := digitsToNat (cs.takeWhile isDigit)
    some (if negative then -e else e, cs.dropWhile isDigit)

/-- Optional exponent part of a number: its value and the remaining text. -/
def parseExp : List Char → Option (Int × List Char)
  | [] => some (0, [])
  | c :: cs =>
    if c = 'e' ∨ c = 'E' then
      match cs with
      | [] => none
      | s :: cs1 =>
        if s = '+' then parseExpDigits false cs1
        else if s = '-' then parseExpDigits true cs1
        else parseExpDigits false (s :: cs1)
    else some (0, c :: cs)

/-- Reads an unsigned JSON number: integer part without superfluous leading zero,
optional fraction, optional exponent. -/
def parseUnsigned (negative : Bool) (cs : List Char) : Option (Json × List Char) :=
  let intDigits := cs.takeWhile isDigit
  if intDigits = [] then none
  else if intDigits.head? = some '0' ∧ 1 < intDigits.length then none
  else
    match parseFrac (cs.dropWhile isDigit) with
    | none => none
    | some (fracDigits, cs1) =>
      match parseExp cs1 with
      | none => none
      | some (e, cs2) =>
        let m : Int := digitsToNat (intDigits ++ fracDigits)
        some (Json.num (if negative then -m else m) (e - fracDigits.length), cs2)

/-- Reads a JSON number. -/
def parseNumber : List Char → Option (Json × List Char)
  | [] => none
  | c :: cs => if c = '-' then parseUnsigned true cs else parseUnsigned false (c :: cs)

/-- Consumes the literal `lit` at the head of the text. -/
def expect : List Char → List Char → Option (List Char)
  | [], cs => some cs
  | _ :: _, [] => none
  | l :: ls, c :: cs => if l = c then expect ls cs else none

/-- `CreateDataProperty`: a repeated key overwrites the value and keeps the place. -/
def defineMember : List (String × Json) → String → Json → List (String × Json)
  | [], k, v => [(k, v)]
  | (k1, v1) :: rest, k, v =>
    if k1 = k then (k, v) :: rest else (k1, v1) :: defineMember rest k v

def defineAll (ms : List (String × Json)) : List (String × Json) :=
  ms.foldl (fun acc p => defineMember acc p.1 p.2) []

/-- Elements of a non-empty array, up to and including the closing bracket;
`pv` reads one value. -/
def parseElems (pv : List Char → Option (Json × List Char)) :
    Nat → List Char → Option (List Json × List Char)
  | 0, _ => none
  | fuel + 1, cs =>
    match pv cs with
    | none => none
    | some (v, r) =>
      match skipWs r with
      | [] => none
      | c :: r1 =>
        if c = comma then
          match parseElems pv fuel r1 with
          | none => none
          | some (vs, r2) => some (v :: vs, r2)
        else if c = rbrack then some ([v], r1)
        else none

/-- Members of a non-empty object, up to and including the closing brace;
`pv` reads one value. -/
def parseMembers (pv : List Char → Option (Json × List Char)) :
    Nat → List Char → Option (List (String × Json) × List Char)
  | 0, _ => none
  | fuel + 1, cs =>
    match skipWs cs with
    | [] => none
    | q :: r =>
      if q = dquote then
        match parseString r with
        | none => none
        | some (k, r1) =>
          match skipWs r1 with
          | [] => none
          | c :: r2 =>
            if c = colon then
              match pv r2 with
              | none => none
              | some (v, r3) =>
                match skipWs r3 with
                | [] => none
                | d :: r4 =>
                  if d = comma then
                    match parseMembers pv fuel r4 with
                    | none => none
                    | some (ms, r5) => some ((k, v) :: ms, r5)
                  else if d = rbrace then some ([(k, v)], r4)
                  else none
            else none
      else none

/-- Reads one JSON value, leading whitespace allowed. `fuel` bounds the nesting
depth and the number of elements of each array and object. -/
def parseValue : Nat → List Char → Option (Json × List Char)
  | 0, _ => none
  | fuel + 1, cs =>
    match skipWs cs with
    | [] => none
    | c :: r =>
      if c = lbrace then
        match skipWs r with
        | [] => none
        | c1 :: r1 =>
          if c1 = rbrace then some (Json.obj [], r1)
          else
            match parseMembers (parseValue fuel) fuel (c1 :: r1) with
            | none => none
            | some (ms, r2) => some (Json.obj (defineAll ms), r2)
      else if c = lbrack then
        match skipWs r with
        | [] => none
        | c1 :: r1 =>
          if c1 = rbrack then some (Json.arr [], r1)
          else
            match parseElems (parseValue fuel) fuel (c1 :: r1) with
            | none => none
            | some (vs, r2) => some (Json.arr vs, r2)
      else if c = dquote then
        match parseString r with
        | none => none
        | some (s, r1) => some (Json.str s, r1)
      else if c = 'n' then (expect ['u', 'l', 'l'] r).map (fun r1 => (Json.null, r1))
      else if c = 't' then (expect ['r', 'u', 'e'] r).map (fun r1 => (Json.bool true, r1))
      else if c = 'f' then
        (expect ['a', 'l', 's', 'e'] r).map (fun r1 => (Json.bool false, r1))
      else parseNumber (c :: r)

/-- `JSON.parse(text)`: one value, nothing but whitespace after it. The fuel is the
length of the text, which exceeds both its nesting depth and its element counts. -/
def JSON.parse (text : String) : Except JsError Json :=
  match parseValue (text.data.length + 1) text.data with
  | none => .error .syntaxError
  | some (v, rest) => if skipWs rest = [] then .ok v else .error .syntaxError

/-- The value `JSON.parse` returns on the text `JSON.stringify` writes for a task. -/
def Task.toJson (t : Task) : Json :=
  .obj [("id", .str t.id), ("text", .str t.text), ("completed", .bool t.completed),
        ("createdAt", .num t.createdAt 0)]

/-- The JavaScript value of a task array. -/
def tasksToJson (ts : List Task) : Json := .arr (ts.map Task.toJson)

/-- Reads a value back as a `Task`: an object with exactly the four properties of
the typedef, of the right types. -/
def Json.toTask? : Json → Option Task
  | .obj [(k1, .str i), (k2, .str t), (k3, .bool c), (k4, .num m e)] =>
    if k1 = "id" ∧ k2 = "text" ∧ k3 = "completed" ∧ k4 = "createdAt" ∧ e = 0 ∧ 0 ≤ m
    then some { id := i, text := t, completed := c, createdAt := m.toNat }
    else none
  | _ => none

def decodeTasks : List Json → Option (List Task)
  | [] => some []
  | j :: js =>
    match j.toTask?, decodeTasks js with
    | some t, some ts => some (t :: ts)
    | _, _ => none

/-- Reads a value back as a `Task[]`. -/
def Json.toTasks? : Json → Option (List Task)
  | .arr js => decodeTasks js
  | _ => none

/-! ## State and operations -/

/-- The mutable state of the script: the module variables `tasks` and `currentFilter`,
and the contents of `localStorage`. -/
structure State where
  tasks : List Task
  currentFilter : String
  storage : Storage
  deriving DecidableEq, Repr

/-- Values read from the environment during one `addTask` call:
`Math.random().toString(36)` and `Date.now()` inside `generateId`, then the
`Date.now()` stored in `createdAt`. -/
structure AddEnv where
  random36 : String
  idNow : Nat
  createdNow : Nat
  deriving DecidableEq, Repr

/-- `Math.random().toString(36).slice(2, 10) + Date.now().toString(36)`. -/
def generateId (random36 : String) (now : Nat) : String :=
  slice random36 2 10 ++ ⟨toRadix 36 now⟩

def saveTasks (st : State) : State :=
  { st with storage := st.storage.setItem STORAGE_KEY (stringify st.tasks) }

def saveFilter (st : State) : State :=
  { st with storage := st.storage.setItem FILTER_STORAGE_KEY st.currentFilter }

/-- What `loadState` leaves in the module variables: `tasks` holds whatever
`JSON.parse` returned, which need not be a task array. -/
structure Loaded where
  tasks : Json
  currentFilter : String

/-- The script's `loadState`: each of the two `try` blocks falls back to its default in
its `catch`. The result is `.error` when an exception reaches the caller. -/
def loadState (storage : Storage) : Except JsError Loaded := do
  let tasks ← tryCatch
    (match storage.getItem STORAGE_KEY with
      | none => pure (Json.arr [])
      | some raw => if raw = "" then pure (Json.arr []) else JSON.parse raw)
    (fun _ => pure (Json.arr []))
  let currentFilter ← tryCatch
    (match storage.getItem FILTER_STORAGE_KEY with
      | none => pure "all"
      | some f => pure (if f = "active" ∨ f = "completed" then f else "all"))
    (fun (_ : JsError) => pure "all")
  pure { tasks := tasks, currentFilter := currentFilter }

def addTask (st : State) (text : String) (env : AddEnv) : State :=
  let trimmed := trim text
  if trimmed = "" then st
  else
    saveTasks { st with
      tasks := { id := generateId env.random36 env.idNow, text := trimmed,
                 completed := false, createdAt := env.createdNow } :: st.tasks }

def deleteTask (st : State) (id : String) : State :=
  saveTasks { st with tasks := st.tasks.filter (fun t => t.id ≠ id) }

/-- In-place update of the task that `tasks.find(t => t.id === id)` returns:
the first task whose id is `id`. -/
def updateFound (id : String) (f : Task → Task) : List Task → List Task
  | [] => []
  | t :: ts => if t.id = id then f t :: ts else t :: updateFound id f ts

def toggleTask (st : State) (id : String) : State :=
  match st.tasks.find? (fun t => t.id = id) with
  | none => st
  | some _ =>
    saveTasks { st with
      tasks := updateFound id (fun t => { t with completed := !t.completed }) st.tasks }

def updateTaskText (st : State) (id : String) (newText : String) : State :=
  match st.tasks.find? (fun t => t.id = id) with
  | none => st
  | some _ =>
    let trimmed := trim newText
    if trimmed = "" then deleteTask st id
    else saveTasks { st with
      tasks := updateFound id (fun t => { t with text := trimmed }) st.tasks }

def clearCompleted (st : State) : State :=
  saveTasks { st with tasks := st.tasks.filter (fun t => !t.completed) }

def setFilter (st : State) (filter : String) : State :=
  saveFilter { st with currentFilter := filter }

/-- The array `visibleTasks()` returns, paired with the state after the call. -/
def visibleTasks (st : State) : List Task × State :=
  if st.currentFilter = "active" then (st.tasks.filter (fun t => !t.completed), st)
  else if st.currentFilter = "completed" then (st.tasks.filter (fun t => t.completed), st)
  else (st.tasks, st)

/-- One call made by the event handlers. -/
inductive Action where
  | addTask (text : String) (env : AddEnv)
  | deleteTask (id : String)
  | toggleTask (id : String)
  | updateTaskText (id : String) (newText : String)
  | clearCompleted
  | setFilter (filter : String)
  deriving DecidableEq, Repr

def step (st : State) : Action → State
  | .addTask text env => addTask st text env
  | .deleteTask id => deleteTask st id
  | .toggleTask id => toggleTask st id
  | .updateTaskText id newText => updateTaskText st id newText
  | .clearCompleted => clearCompleted st
  | .setFilter filter => setFilter st filter

/-- The state after a sequence of calls, oldest first. -/
def run (st : State) (actions : List Action) : State := actions.foldl step st

/-! ## Auxiliary predicates -/

/-- Every task has a non-empty text. -/
def TextsNonEmpty (ts : List Task) : Prop := ∀ t ∈ ts, t.text ≠ ""

instance (ts : List Task) : Decidable (TextsNonEmpty ts) :=
  inferInstanceAs (Decidable (∀ t ∈ ts, t.text ≠ ""))

/-- Whether every identifier that `generateId` returns during the calls differs from the
identifiers of the tasks in the list at that moment. -/
def freshRun : State → List Action → Bool
  | _, [] => true
  | st, a :: rest =>
    (match a with
      | .addTask text env =>
        decide (trim text = "") ||
          decide (generateId env.random36 env.idNow ∉ st.tasks.map Task.id)
      | _ => true) && freshRun (step st a) rest

/-- What reading one more code point `u` does to the result of reading the rest. -/
def consUnit (u : Nat) : Option (List Nat × List Char) → Option (List Nat × List Char)
  | none => none
  | some (us, rest) => some (u :: us, rest)

/-- The value `loadState` assigns to `tasks`. -/
def loadedTasks (s : Storage) : Json :=
  match s.getItem STORAGE_KEY with
  | none => Json.arr []
  | some raw =>
    if raw = "" then Json.arr []
    else match JSON.parse raw with
      | .ok v => v
      | .error _ => Json.arr []

/-- The value `loadState` assigns to `currentFilter`. -/
def loadedFilter (s : Storage) : String :=
  match s.getItem FILTER_STORAGE_KEY with
  | none => "all"
  | some f => if f = "active" ∨ f = "completed" then f else "all"

/-! ## Storage, trimming and list lemmas -/


@[simp] theorem saveTasks_tasks (st : State) : (saveTasks st).tasks = st.tasks := rfl
@[simp] theorem saveTasks_currentFilter (st : State) :
    (saveTasks st).currentFilter = st.currentFilter := rfl
@[simp] theorem saveFilter_tasks (st : State) : (saveFilter st).tasks = st.tasks := rfl

theorem trimStart_of_all_ws (cs : List Char) (h : ∀ c ∈ cs, isWhiteSpace c = true) :
    trimStart cs = [] := by
  unfold trimStart
  induction cs with
  | nil => rfl
  | cons c cs ih =>
    have hc := h c (List.mem_cons_self _ _)
    simp only [List.dropWhile_cons, hc, if_true]
    exact ih (fun d hd => h d (List.mem_cons_of_mem _ hd))

theorem trim_of_all_ws (t : String) (h : ∀ c ∈ t.data, isWhiteSpace c = true) :
    trim t = "" := by
  unfold trim
  rw [trimStart_of_all_ws _ h]
  rfl

theorem addTask_of_nonblank (st : State) (t : String) (env : AddEnv) (h : trim t ≠ "") :
    addTask st t env = saveTasks { st with
      tasks := { id := generateId env.random36 env.idNow, text := trim t,
                 completed := false, createdAt := env.createdNow } :: st.tasks } := by
  simp [addTask, h]

theorem addTask_of_blank (st : State) (t : String) (env : AddEnv) (h : trim t = "") :
    addTask st t env = st := by
  simp [addTask, h]

theorem run_cons (st : State) (a : Action) (as : List Action) :
    run st (a :: as) = run (step st a) as := rfl

theorem run_addTasks_texts (calls : List (String × AddEnv)) :
    ∀ st : State, (∀ c ∈ calls, trim c.1 ≠ "") →
      (run st (calls.map fun c => Action.addTask c.1 c.2)).tasks.map Task.text
        = (calls.map fun c => trim c.1).reverse ++ st.tasks.map Task.text := by
  induction calls with
  | nil => intro st _; simp [run]
  | cons c cs ih =>
    intro st h
    have hc := h c (List.mem_cons_self _ _)
    rw [List.map_cons, run_cons, ih _ (fun d hd => h d (List.mem_cons_of_mem _ hd))]
    simp [step, addTask_of_nonblank _ _ _ hc]

theorem updateFound_map_id (id : String) (f : Task → Task) (hf : ∀ t, (f t).id = t.id)
    (ts : List Task) : (updateFound id f ts).map Task.id = ts.map Task.id := by
  induction ts with
  | nil => rfl
  | cons t ts ih =>
    unfold updateFound
    split
    · simp [hf]
    · simp [ih]

theorem find_eq_none_iff (id : String) (ts : List Task) :
    ts.find? (fun t => decide (t.id = id)) = none ↔ ∀ t ∈ ts, t.id ≠ id := by
  simp [List.find?_eq_none]

theorem find_isSome_of_mem (id : String) (ts : List Task) (h : ∃ t ∈ ts, t.id = id) :
    ∃ u, ts.find? (fun t => decide (t.id = id)) = some u := by
  cases hfind : ts.find? (fun t => decide (t.id = id)) with
  | some u => exact ⟨u, rfl⟩
  | none =>
    obtain ⟨t, ht, hid⟩ := h
    exact absurd hid ((find_eq_none_iff id ts).1 hfind t ht)

theorem toggleTask_of_absent (st : State) (id : String) (h : ∀ t ∈ st.tasks, t.id ≠ id) :
    toggleTask st id = st := by
  unfold toggleTask
  rw [(find_eq_none_iff id st.tasks).2 h]

theorem toggleTask_of_present (st : State) (id : String) (h : ∃ t ∈ st.tasks, t.id = id) :
    toggleTask st id = saveTasks { st with
      tasks := updateFound id (fun t => { t with completed := !t.completed }) st.tasks } := by
  obtain ⟨u, hu⟩ := find_isSome_of_mem id st.tasks h
  unfold toggleTask
  rw [hu]

theorem updateFound_twice (id : String) (f : Task → Task) (hf : ∀ t, (f t).id = t.id)
    (hff : ∀ t, f (f t) = t) (ts : List Task) :
    updateFound id f (updateFound id f ts) = ts := by
  induction ts with
  | nil => rfl
  | cons t ts ih =>
    by_cases ht : t.id = id
    · have h1 : updateFound id f (t :: ts) = f t :: ts := by simp [updateFound, ht]
      rw [h1]
      simp [updateFound, hf, ht, hff]
    · have h1 : updateFound id f (t :: ts) = t :: updateFound id f ts := by
        simp [updateFound, ht]
      rw [h1]
      simp [updateFound, ht, ih]

theorem mem_updateFound_id (id : String) (f : Task → Task) (hf : ∀ t, (f t).id = t.id)
    (ts : List Task) : (∃ t ∈ updateFound id f ts, t.id = id) ↔ ∃ t ∈ ts, t.id = id := by
  have h := updateFound_map_id id f hf ts
  constructor
  · rintro ⟨t, ht, hid⟩
    have : id ∈ (updateFound id f ts).map Task.id := List.mem_map.2 ⟨t, ht, hid⟩
    rw [h] at this
    exact List.mem_map.1 this
  · rintro ⟨t, ht, hid⟩
    have : id ∈ ts.map Task.id := List.mem_map.2 ⟨t, ht, hid⟩
    rw [← h] at this
    exact List.mem_map.1 this

theorem setItem_setItem (s : Storage) (k v : String) :
    (s.setItem k v).setItem k v = s.setItem k v := by
  induction s with
  | nil => simp [Storage.setItem]
  | cons p rest ih =>
    obtain ⟨k1, v1⟩ := p
    by_cases h : k1 = k
    · simp [Storage.setItem, h]
    · simp [Storage.setItem, h, ih]

theorem getItem_setItem (s : Storage) (k v : String) :
    (s.setItem k v).getItem k = some v := by
  induction s with
  | nil => simp [Storage.setItem, Storage.getItem]
  | cons p rest ih =>
    obtain ⟨k1, v1⟩ := p
    by_cases h : k1 = k
    · simp [Storage.setItem, Storage.getItem, h]
    · simp [Storage.setItem, Storage.getItem, h, ih]

theorem getItem_setItem_of_ne (s : Storage) (k k2 v : String) (hne : k ≠ k2) :
    (s.setItem k v).getItem k2 = s.getItem k2 := by
  induction s with
  | nil => simp [Storage.setItem, Storage.getItem, hne]
  | cons p rest ih =>
    obtain ⟨k1, v1⟩ := p
    by_cases h : k1 = k
    · subst h; simp [Storage.setItem, Storage.getItem, hne]
    · by_cases h2 : k1 = k2
      · subst h2; simp [Storage.setItem, Storage.getItem, h]
      · simp [Storage.setItem, Storage.getItem, h, h2, ih]

theorem mem_updateFound (id : String) (f : Task → Task) (ts : List Task) (t : Task)
    (h : t ∈ updateFound id f ts) : t ∈ ts ∨ ∃ u ∈ ts, t = f u := by
  induction ts with
  | nil => simp [updateFound] at h
  | cons a ts ih =>
    unfold updateFound at h
    split at h
    · rcases List.mem_cons.1 h with h1 | h1
      · exact Or.inr ⟨a, List.mem_cons_self _ _, h1⟩
      · exact Or.inl (List.mem_cons_of_mem _ h1)
    · rcases List.mem_cons.1 h with h1 | h1
      · exact Or.inl (h1 ▸ List.mem_cons_self _ _)
      · rcases ih h1 with h2 | ⟨u, hu, h2⟩
        · exact Or.inl (List.mem_cons_of_mem _ h2)
        · exact Or.inr ⟨u, List.mem_cons_of_mem _ hu, h2⟩

theorem textsNonEmpty_filter (p : Task → Bool) (ts : List Task) (h : TextsNonEmpty ts) :
    TextsNonEmpty (ts.filter p) :=
  fun t ht => h t (List.mem_of_mem_filter ht)

theorem textsNonEmpty_updateFound (id : String) (f : Task → Task) (ts : List Task)
    (h : TextsNonEmpty ts) (hf : ∀ t, t.text ≠ "" → (f t).text ≠ "") :
    TextsNonEmpty (updateFound id f ts) := by
  intro t ht
  rcases mem_updateFound id f ts t ht with h1 | ⟨u, hu, h1⟩
  · exact h t h1
  · rw [h1]; exact hf u (h u hu)

theorem textsNonEmpty_step (st : State) (a : Action) (h : TextsNonEmpty st.tasks) :
    TextsNonEmpty (step st a).tasks := by
  cases a with
  | addTask text env =>
    simp only [step]
    by_cases hb : trim text = ""
    · rw [addTask_of_blank _ _ _ hb]; exact h
    · rw [addTask_of_nonblank _ _ _ hb]
      intro t ht
      rcases List.mem_cons.1 ht with h1 | h1
      · rw [h1]; exact hb
      · exact h t h1
  | deleteTask id => exact textsNonEmpty_filter _ _ h
  | toggleTask id =>
    simp only [step, toggleTask]
    split
    · exact h
    · exact textsNonEmpty_updateFound _ _ _ h (fun _ ht => ht)
  | updateTaskText id newText =>
    simp only [step, updateTaskText]
    split
    · exact h
    · by_cases hb : trim newText = ""
      · simp only [hb, if_true]; exact textsNonEmpty_filter _ _ h
      · simp only [hb, if_false]
        exact textsNonEmpty_updateFound _ _ _ h (fun _ _ => hb)
  | clearCompleted => exact textsNonEmpty_filter _ _ h
  | setFilter filter => exact h

theorem textsNonEmpty_run (actions : List Action) :
    ∀ st : State, TextsNonEmpty st.tasks → TextsNonEmpty (run st actions).tasks := by
  induction actions with
  | nil => intro st h; exact h
  | cons a as ih => intro st h; exact ih _ (textsNonEmpty_step st a h)

theorem visibleTasks_subset (st : State) : ∀ t ∈ (visibleTasks st).1, t ∈ st.tasks := by
  intro t ht
  unfold visibleTasks at ht
  split at ht
  · exact List.mem_of_mem_filter ht
  · split at ht
    · exact List.mem_of_mem_filter ht
    · exact ht

theorem nodup_ids_filter (p : Task → Bool) (ts : List Task) (h : (ts.map Task.id).Nodup) :
    ((ts.filter p).map Task.id).Nodup :=
  h.sublist ((List.filter_sublist ts).map Task.id)

theorem nodup_ids_step (st : State) (a : Action) (h : (st.tasks.map Task.id).Nodup)
    (hfresh : freshRun st [a] = true) : ((step st a).tasks.map Task.id).Nodup := by
  cases a with
  | addTask text env =>
    simp only [step]
    by_cases hb : trim text = ""
    · rw [addTask_of_blank _ _ _ hb]; exact h
    · rw [addTask_of_nonblank _ _ _ hb]
      simp only [freshRun, hb, decide_False, Bool.false_or, Bool.and_true,
        decide_eq_true_eq] at hfresh
      simp only [saveTasks_tasks, List.map_cons]
      exact List.nodup_cons.2 ⟨hfresh, h⟩
  | deleteTask id => exact nodup_ids_filter _ _ h
  | toggleTask id =>
    simp only [step, toggleTask]
    split
    · exact h
    · simp only [saveTasks_tasks]
      rw [updateFound_map_id id (fun t => { t with completed := !t.completed })
        (fun _ => rfl)]
      exact h
  | updateTaskText id newText =>
    simp only [step, updateTaskText]
    split
    · exact h
    · by_cases hb : trim newText = ""
      · simp only [hb, if_true]; exact nodup_ids_filter _ _ h
      · simp only [hb, if_false, saveTasks_tasks]
        rw [updateFound_map_id id (fun t => { t with text := trim newText }) (fun _ => rfl)]
        exact h
  | clearCompleted => exact nodup_ids_filter _ _ h
  | setFilter filter => exact h

theorem freshRun_cons (st : State) (a : Action) (as : List Action) :
    freshRun st (a :: as) = (freshRun st [a] && freshRun (step st a) as) := by
  simp [freshRun]

theorem nodup_ids_run (actions : List Action) :
    ∀ st : State, (st.tasks.map Task.id).Nodup → freshRun st actions = true →
      ((run st actions).tasks.map Task.id).Nodup := by
  induction actions with
  | nil => intro st h _; exact h
  | cons a as ih =>
    intro st h hf
    rw [freshRun_cons, Bool.and_eq_true] at hf
    exact ih _ (nodup_ids_step st a h hf.1) hf.2

/-! ## Decimal numbers read back -/


theorem digitChar_toNat : ∀ d, d < 10 → (digitChar d).toNat = 48 + d := by decide

theorem isDigit_digitChar (d : Nat) (h : d < 10) : isDigit (digitChar d) = true := by
  simp [isDigit, digitChar_toNat d h]; omega

theorem toRadixAux_acc (b : Nat) (fuel : Nat) :
    ∀ n acc, toRadixAux b fuel n acc = toRadixAux b fuel n [] ++ acc := by
  induction fuel with
  | zero => intro n acc; simp [toRadixAux]
  | succ fuel ih =>
    intro n acc
    unfold toRadixAux
    split
    · simp
    · rw [ih (n / b) (digitChar (n % b) :: acc), ih (n / b) [digitChar (n % b)]]
      simp

theorem toRadixAux_ne_nil (b fuel n : Nat) : toRadixAux b (fuel + 1) n [] ≠ [] := by
  unfold toRadixAux
  split
  · simp
  · rw [toRadixAux_acc]; simp

theorem digitsToNat_snoc (ds : List Char) (c : Char) :
    digitsToNat (ds ++ [c]) = digitsToNat ds * 10 + (c.toNat - 48) := by
  simp [digitsToNat, List.foldl_append]

theorem toRadixAux_digits (fuel : Nat) :
    ∀ n, ∀ c ∈ toRadixAux 10 fuel n [], isDigit c = true := by
  induction fuel with
  | zero => intro n c hc; simp [toRadixAux] at hc
  | succ fuel ih =>
    intro n c hc
    unfold toRadixAux at hc
    split at hc
    · rename_i hlt
      rw [List.mem_singleton] at hc
      rw [hc]; exact isDigit_digitChar n hlt
    · rw [toRadixAux_acc] at hc
      rcases List.mem_append.1 hc with h1 | h1
      · exact ih _ c h1
      · rw [List.mem_singleton] at h1
        rw [h1]; exact isDigit_digitChar _ (Nat.mod_lt _ (by decide))

theorem toRadixAux_value (fuel : Nat) :
    ∀ n, n < fuel → digitsToNat (toRadixAux 10 fuel n []) = n := by
  induction fuel with
  | zero => intro n h; omega
  | succ fuel ih =>
    intro n h
    unfold toRadixAux
    split
    · rename_i hlt
      simp [digitsToNat, digitChar_toNat n hlt]
    · rw [toRadixAux_acc, digitsToNat_snoc, ih (n / 10) (by omega),
        digitChar_toNat _ (Nat.mod_lt _ (by decide))]
      omega

theorem toRadixAux_head (fuel : Nat) :
    ∀ n, n < fuel → (toRadixAux 10 fuel n []).head? = some '0' → n = 0 := by
  induction fuel with
  | zero => intro n h; omega
  | succ fuel ih =>
    intro n h hh
    unfold toRadixAux at hh
    split at hh
    · rename_i hlt
      simp only [List.head?_cons, Option.some.injEq] at hh
      have : (digitChar n).toNat = 48 := by rw [hh]; rfl
      rw [digitChar_toNat n hlt] at this
      omega
    · rename_i hge
      rw [toRadixAux_acc] at hh
      cases fuel with
      | zero => omega
      | succ f =>
        rw [List.head?_append_of_ne_nil _ (toRadixAux_ne_nil 10 f _)] at hh
        have := ih (n / 10) (by omega) hh
        omega

theorem takeWhile_digits (ds rest : List Char) (c : Char) (hds : ∀ d ∈ ds, isDigit d = true)
    (hc : isDigit c = false) : (ds ++ c :: rest).takeWhile isDigit = ds := by
  induction ds with
  | nil => simp [List.takeWhile, hc]
  | cons d ds ih =>
    simp only [List.cons_append, List.takeWhile_cons, hds d (List.mem_cons_self _ _), if_true]
    rw [ih (fun e he => hds e (List.mem_cons_of_mem _ he))]

theorem dropWhile_digits (ds rest : List Char) (c : Char) (hds : ∀ d ∈ ds, isDigit d = true)
    (hc : isDigit c = false) : (ds ++ c :: rest).dropWhile isDigit = c :: rest := by
  induction ds with
  | nil => simp [List.dropWhile, hc]
  | cons d ds ih =>
    simp only [List.cons_append, List.dropWhile_cons, hds d (List.mem_cons_self _ _), if_true]
    exact ih (fun e he => hds e (List.mem_cons_of_mem _ he))

theorem isDigit_ne_minus (c : Char) (h : isDigit c = true) : c ≠ '-' := by
  intro hc; rw [hc] at h; revert h; decide

theorem isDigit_not_ws (c : Char) (h : isDigit c = true) : isJsonWs c = false := by
  cases hws : isJsonWs c with
  | false => rfl
  | true =>
    simp only [isJsonWs, Bool.or_eq_true, decide_eq_true_eq] at hws
    rcases hws with ((h1 | h1) | h1) | h1 <;> (rw [h1] at h; revert h; decide)

theorem parseFrac_rbrace (rest : List Char) :
    parseFrac (rbrace :: rest) = some ([], rbrace :: rest) := rfl

theorem parseExp_rbrace (rest : List Char) :
    parseExp (rbrace :: rest) = some (0, rbrace :: rest) := rfl

/-- The decimal text of `n`, followed by a closing brace, reads back as the integer `n`. -/
theorem parseNumber_toRadix (n : Nat) (rest : List Char) :
    parseNumber (toRadix 10 n ++ rbrace :: rest) = some (Json.num n 0, rbrace :: rest) := by
  have hds : ∀ d ∈ toRadix 10 n, isDigit d = true := toRadixAux_digits (n + 1) n
  have hval : digitsToNat (toRadix 10 n) = n := toRadixAux_value (n + 1) n (by omega)
  have hhead : (toRadix 10 n).head? = some '0' → n = 0 := toRadixAux_head (n + 1) n (by omega)
  have hne : toRadix 10 n ≠ [] := toRadixAux_ne_nil 10 n n
  have hrb : isDigit rbrace = false := by decide
  obtain ⟨d, ds, hcons⟩ := List.exists_cons_of_ne_nil hne
  have hd : isDigit d = true := hds d (by rw [hcons]; exact List.mem_cons_self _ _)
  have hlen : (toRadix 10 n).head? = some '0' → ¬ 1 < (toRadix 10 n).length := by
    intro h0
    have hn := hhead h0
    subst hn
    decide
  have hparse : parseUnsigned false (toRadix 10 n ++ rbrace :: rest)
      = some (Json.num n 0, rbrace :: rest) := by
    unfold parseUnsigned
    simp only [takeWhile_digits _ rest rbrace hds hrb, dropWhile_digits _ rest rbrace hds hrb]
    rw [if_neg hne, if_neg (fun h => hlen h.1 h.2)]
    simp [parseFrac_rbrace, parseExp_rbrace, hval]
  rw [hcons] at hparse ⊢
  simp only [List.cons_append] at hparse ⊢
  simp only [parseNumber]
  rw [if_neg (isDigit_ne_minus d hd)]
  exact hparse

/-! ## Quoted strings read back -/


theorem hex4_control : ∀ n, n < 32 →
    hex4 '0' '0' (hexDigit (n / 16)) (hexDigit (n % 16)) = some n := by decide

theorem parseStringUnits_short (e : Char) (u : Nat) (X : List Char) (he : e ≠ 'u')
    (hu : unescape e = some u) :
    parseStringUnits (backslash :: e :: X) = consUnit u (parseStringUnits X) := by
  rw [parseStringUnits.eq_def]
  simp only [if_neg he, hu, if_true]
  cases parseStringUnits X with
  | none => rfl
  | some p => rfl

theorem parseStringUnits_hex (a b c d : Char) (u : Nat) (X : List Char)
    (hu : hex4 a b c d = some u) :
    parseStringUnits (backslash :: 'u' :: a :: b :: c :: d :: X)
      = consUnit u (parseStringUnits X) := by
  rw [parseStringUnits.eq_def]
  simp only [if_true, hu]
  cases parseStringUnits X with
  | none => rfl
  | some p => rfl

theorem parseStringUnits_plain (c : Char) (X : List Char) (h1 : c ≠ dquote)
    (h2 : c ≠ backslash) (h3 : ¬ c.toNat < 32) :
    parseStringUnits (c :: X) = consUnit c.toNat (parseStringUnits X) := by
  rw [parseStringUnits.eq_def]
  simp only [if_neg h1, if_neg h2, if_neg h3]
  cases parseStringUnits X with
  | none => rfl
  | some p => rfl

theorem parseStringUnits_escapeChar (c : Char) (X : List Char) :
    parseStringUnits (escapeChar c ++ X) = consUnit c.toNat (parseStringUnits X) := by
  unfold escapeChar
  split
  · rename_i h; subst h
    exact parseStringUnits_short _ _ X (by decide) rfl
  split
  · rename_i h; subst h
    exact parseStringUnits_short _ _ X (by decide) rfl
  split
  · rename_i h; subst h
    exact parseStringUnits_short _ _ X (by decide) rfl
  split
  · rename_i h; subst h
    exact parseStringUnits_short _ _ X (by decide) rfl
  split
  · rename_i h; subst h
    exact parseStringUnits_short _ _ X (by decide) rfl
  split
  · rename_i h; subst h
    exact parseStringUnits_short _ _ X (by decide) rfl
  split
  · rename_i h; subst h
    exact parseStringUnits_short _ _ X (by decide) rfl
  split
  · rename_i h
    exact parseStringUnits_hex _ _ _ _ _ X (hex4_control c.toNat h)
  · rename_i h1 h2 _ _ _ _ _ h3
    exact parseStringUnits_plain c X h1 h2 h3

theorem parseStringUnits_escapeChars (cs rest : List Char) :
    parseStringUnits (escapeChars cs ++ dquote :: rest) = some (cs.map Char.toNat, rest) := by
  induction cs with
  | nil =>
    rw [escapeChars, List.nil_append, parseStringUnits.eq_def]
    simp
  | cons c cs ih =>
    rw [escapeChars, List.append_assoc, parseStringUnits_escapeChar, ih]
    rfl

theorem unitsToChars_map_toNat (cs : List Char) : unitsToChars (cs.map Char.toNat) = cs := by
  induction cs with
  | nil => rfl
  | cons c cs ih =>
    have hv : c.toNat < 0xD800 ∨ (0xDFFF < c.toNat ∧ c.toNat < 0x110000) := c.valid
    have h1 : isHighSurrogate c.toNat = false := by
      simp [isHighSurrogate]; omega
    have h2 : isLowSurrogate c.toNat = false := by
      simp [isLowSurrogate]; omega
    rw [List.map_cons, unitsToChars.eq_def]
    simp only [h1, h2, ih, Char.ofNat_toNat]
    simp

theorem parseString_quote (s : String) (rest : List Char) :
    parseString (escapeChars s.data ++ dquote :: rest) = some (s, rest) := by
  unfold parseString
  rw [parseStringUnits_escapeChars]
  simp only [unitsToChars_map_toNat]

/-! ## Task arrays read back -/


theorem skipWs_cons (c : Char) (r : List Char) (h : isJsonWs c = false) :
    skipWs (c :: r) = c :: r := by
  simp [skipWs, List.dropWhile, h]

theorem quoteChars_append (s : String) (rest : List Char) :
    quoteChars s ++ rest = dquote :: (escapeChars s.data ++ dquote :: rest) := by
  simp [quoteChars]

theorem parseValue_string (f : Nat) (s : String) (rest : List Char) :
    parseValue (f + 1) (quoteChars s ++ rest) = some (Json.str s, rest) := by
  rw [quoteChars_append, parseValue, skipWs_cons _ _ (by decide)]
  simp only [if_true, parseString_quote]
  rw [if_neg (by decide), if_neg (by decide)]

theorem parseValue_true (f : Nat) (rest : List Char) :
    parseValue (f + 1) ("true".data ++ rest) = some (Json.bool true, rest) := rfl

theorem parseValue_false (f : Nat) (rest : List Char) :
    parseValue (f + 1) ("false".data ++ rest) = some (Json.bool false, rest) := rfl

theorem parseValue_bool (f : Nat) (b : Bool) (rest : List Char) :
    parseValue (f + 1) ((if b then "true".data else "false".data) ++ rest)
      = some (Json.bool b, rest) := by
  cases b
  · exact parseValue_false f rest
  · exact parseValue_true f rest

theorem isDigit_ne (c x : Char) (h : isDigit c = true) (hx : isDigit x = false) : c ≠ x := by
  intro hc; rw [hc, hx] at h; cases h

theorem parseValue_number (f n : Nat) (rest : List Char) :
    parseValue (f + 1) (toRadix 10 n ++ rbrace :: rest)
      = some (Json.num n 0, rbrace :: rest) := by
  have hnum := parseNumber_toRadix n rest
  obtain ⟨d, ds, hcons⟩ := List.exists_cons_of_ne_nil (toRadixAux_ne_nil 10 n n)
  have hd : isDigit d = true :=
    toRadixAux_digits (n + 1) n d (by
      have : toRadixAux 10 (n + 1) n [] = d :: ds := hcons
      rw [this]; exact List.mem_cons_self _ _)
  have hcons2 : toRadix 10 n = d :: ds := hcons
  rw [hcons2] at hnum ⊢
  rw [List.cons_append] at hnum ⊢
  rw [parseValue, skipWs_cons _ _ (isDigit_not_ws d hd)]
  simp only []
  rw [if_neg (isDigit_ne d _ hd (by decide)), if_neg (isDigit_ne d _ hd (by decide)),
    if_neg (isDigit_ne d _ hd (by decide)), if_neg (isDigit_ne d _ hd (by decide)),
    if_neg (isDigit_ne d _ hd (by decide)), if_neg (isDigit_ne d _ hd (by decide))]
  exact hnum

theorem parseMembers_more (pv : List Char → Option (Json × List Char)) (g : Nat)
    (k : String) (v : Json) (X Y : List Char) (hv : pv X = some (v, comma :: Y)) :
    parseMembers pv (g + 1) (quoteChars k ++ colon :: X)
      = (match parseMembers pv g Y with
          | none => none
          | some (ms, r) => some ((k, v) :: ms, r)) := by
  rw [quoteChars_append, parseMembers, skipWs_cons _ _ (by decide)]
  simp only [if_true, parseString_quote]
  rw [skipWs_cons _ _ (by decide)]
  simp only [if_true, hv]
  rw [skipWs_cons _ _ (by decide)]
  simp only [if_true]

theorem parseMembers_last (pv : List Char → Option (Json × List Char)) (g : Nat)
    (k : String) (v : Json) (X Y : List Char) (hv : pv X = some (v, rbrace :: Y)) :
    parseMembers pv (g + 1) (quoteChars k ++ colon :: X) = some ([(k, v)], Y) := by
  rw [quoteChars_append, parseMembers, skipWs_cons _ _ (by decide)]
  simp only [if_true, parseString_quote]
  rw [skipWs_cons _ _ (by decide)]
  simp only [if_true, hv]
  rw [skipWs_cons _ _ (by decide)]
  simp only [if_true, if_false]
  rw [if_neg (by decide)]


theorem stringifyTask_eq (t : Task) (rest : List Char) :
    stringifyTask t ++ rest
      = lbrace :: (quoteChars "id" ++ colon :: (quoteChars t.id ++ comma ::
          (quoteChars "text" ++ colon :: (quoteChars t.text ++ comma ::
          (quoteChars "completed" ++ colon ::
            ((if t.completed then "true".data else "false".data) ++ comma ::
          (quoteChars "createdAt" ++ colon :: (toRadix 10 t.createdAt ++ rbrace :: rest)))))))) := by
  simp [stringifyTask, List.append_assoc]

theorem parseValue_task (f : Nat) (t : Task) (rest : List Char) :
    parseValue (f + 5) (stringifyTask t ++ rest) = some (t.toJson, rest) := by
  have hm : parseMembers (parseValue (f + 4)) (f + 4)
      (quoteChars "id" ++ colon :: (quoteChars t.id ++ comma ::
          (quoteChars "text" ++ colon :: (quoteChars t.text ++ comma ::
          (quoteChars "completed" ++ colon ::
            ((if t.completed then "true".data else "false".data) ++ comma ::
          (quoteChars "createdAt" ++ colon :: (toRadix 10 t.createdAt ++ rbrace :: rest))))))))
      = some ([("id", .str t.id), ("text", .str t.text), ("completed", .bool t.completed),
          ("createdAt", .num t.createdAt 0)], rest) := by
    rw [parseMembers_more _ _ _ _ _ _ (parseValue_string _ _ _),
      parseMembers_more _ _ _ _ _ _ (parseValue_string _ _ _),
      parseMembers_more _ _ _ _ _ _ (parseValue_bool _ _ _),
      parseMembers_last _ _ _ _ _ _ (parseValue_number _ _ _)]
  rw [stringifyTask_eq, parseValue, skipWs_cons _ _ (by decide)]
  simp only [if_true]
  rw [quoteChars_append, skipWs_cons _ _ (by decide)]
  simp only []
  rw [if_neg (by decide), ← quoteChars_append, hm]
  rfl

theorem stringifyElems_cons (t : Task) (ts : List Task) (rest : List Char) :
    ∃ r, stringifyElems t ts ++ rest = lbrace :: r := by
  cases ts with
  | nil => exact ⟨_, by rw [stringifyElems, List.append_assoc, stringifyTask_eq]⟩
  | cons u us => exact ⟨_, by rw [stringifyElems, List.append_assoc, stringifyTask_eq]⟩

theorem parseElems_tasks (f : Nat) (ts : List Task) :
    ∀ (t : Task) (g : Nat) (rest : List Char), ts.length < g →
      parseElems (parseValue (f + 5)) g (stringifyElems t ts ++ rest)
        = some ((t :: ts).map Task.toJson, rest) := by
  induction ts with
  | nil =>
    intro t g rest hg
    obtain ⟨g, rfl⟩ : ∃ k, g = k + 1 := ⟨g - 1, by simp at hg; omega⟩
    rw [stringifyElems, List.append_assoc, parseElems, parseValue_task]
    simp only [List.singleton_append]
    rw [skipWs_cons _ _ (by decide)]
    simp only [if_true]
    rfl
  | cons u us ih =>
    intro t g rest hg
    obtain ⟨g, rfl⟩ : ∃ k, g = k + 1 := ⟨g - 1, by simp at hg; omega⟩
    rw [stringifyElems, List.append_assoc, parseElems, parseValue_task]
    simp only [List.cons_append]
    rw [skipWs_cons _ _ (by decide)]
    simp only [if_true]
    rw [ih u g rest (by simp at hg ⊢; omega)]
    rfl

theorem length_stringifyTask (t : Task) : 5 ≤ (stringifyTask t).length := by
  simp [stringifyTask, quoteChars]
  omega

theorem length_stringifyElems (ts : List Task) :
    ∀ t, 5 * (ts.length + 1) ≤ (stringifyElems t ts).length := by
  induction ts with
  | nil =>
    intro t
    have := length_stringifyTask t
    simp [stringifyElems]; omega
  | cons u us ih =>
    intro t
    have := length_stringifyTask t
    have := ih u
    simp [stringifyElems] at *; omega

/-- The text `JSON.stringify` writes for a task array reads back as that array. -/
theorem parse_stringify (L : List Task) : JSON.parse (stringify L) = .ok (tasksToJson L) := by
  cases L with
  | nil => rfl
  | cons t ts =>
    have hlen := length_stringifyElems ts t
    obtain ⟨n, hn⟩ : ∃ n, (stringifyElems t ts).length = n + 5 :=
      ⟨(stringifyElems t ts).length - 5, by omega⟩
    obtain ⟨r, hr⟩ := stringifyElems_cons t ts []
    rw [List.append_nil] at hr
    have hp : parseValue ((stringify (t :: ts)).data.length + 1) (stringify (t :: ts)).data
        = some (tasksToJson (t :: ts), []) := by
      have h1 : (stringify (t :: ts)).data = lbrack :: stringifyElems t ts := rfl
      rw [h1, List.length_cons, hn, parseValue, skipWs_cons _ _ (by decide)]
      simp only [if_true]
      have h2 := parseElems_tasks (n + 1) ts t (n + 6) [] (by omega)
      rw [List.append_nil] at h2
      have hne : ¬ (lbrace = rbrack) := by decide
      rw [hr, skipWs_cons _ _ (by decide)]
      simp only []
      rw [if_neg hne, ← hr, h2]
      rfl
    unfold JSON.parse
    rw [hp]
    rfl

theorem toTask_toJson (t : Task) : t.toJson.toTask? = some t := by
  simp [Task.toJson, Json.toTask?]

theorem decodeTasks_map (L : List Task) : decodeTasks (L.map Task.toJson) = some L := by
  induction L with
  | nil => rfl
  | cons t ts ih => simp [decodeTasks, toTask_toJson, ih]

theorem toTasks_tasksToJson (L : List Task) : (tasksToJson L).toTasks? = some L := by
  simp [tasksToJson, Json.toTasks?, decodeTasks_map]

/-! ## Loading -/

theorem keys_ne : STORAGE_KEY ≠ FILTER_STORAGE_KEY := by decide

theorem stringify_ne_empty (L : List Task) : stringify L ≠ "" := by
  intro h
  have h2 : (stringify L).data = [] := by rw [h]
  cases L with
  | nil => cases h2
  | cons t ts => cases h2

theorem loadState_eq (s : Storage) :
    loadState s = .ok { tasks := loadedTasks s, currentFilter := loadedFilter s } := by
  unfold loadState loadedTasks loadedFilter
  cases h1 : s.getItem STORAGE_KEY with
  | none =>
    cases h2 : s.getItem FILTER_STORAGE_KEY with
    | none => rfl
    | some f => rfl
  | some raw =>
    by_cases hraw : raw = ""
    · cases h2 : s.getItem FILTER_STORAGE_KEY with
      | none => simp only [hraw, if_true]; rfl
      | some f => simp only [hraw, if_true]; rfl
    · simp only [hraw, if_false]
      cases hp : JSON.parse raw with
      | error e =>
        cases h2 : s.getItem FILTER_STORAGE_KEY with
        | none => rfl
        | some f => rfl
      | ok v =>
        cases h2 : s.getItem FILTER_STORAGE_KEY with
        | none => rfl
        | some f => rfl

theorem loadedTasks_of_getItem (s : Storage) (L : List Task)
    (h : s.getItem STORAGE_KEY = some (stringify L)) : loadedTasks s = tasksToJson L := by
  unfold loadedTasks
  rw [h]
  simp only [stringify_ne_empty L, if_false, parse_stringify]

theorem loadedFilter_of_getItem (s : Storage) (f : String)
    (h : s.getItem FILTER_STORAGE_KEY = some f)
    (hf : f = "all" ∨ f = "active" ∨ f = "completed") : loadedFilter s = f := by
  unfold loadedFilter
  rw [h]
  rcases hf with h1 | h1 | h1 <;> subst h1 <;> decide

theorem getItem_saved (st saved : State)
    (hs : saved = saveFilter (saveTasks st) ∨ saved = saveTasks (saveFilter st)) :
    saved.storage.getItem STORAGE_KEY = some (stringify st.tasks) ∧
    saved.storage.getItem FILTER_STORAGE_KEY = some st.currentFilter := by
  rcases hs with hs | hs <;> subst hs <;> simp only [saveFilter, saveTasks]
  · exact ⟨by rw [getItem_setItem_of_ne _ _ _ _ (Ne.symm keys_ne), getItem_setItem],
      getItem_setItem _ _ _⟩
  · exact ⟨getItem_setItem _ _ _,
      by rw [getItem_setItem_of_ne _ _ _ _ keys_ne, getItem_setItem]⟩

/-! ## Properties of the engine -/

/-- Claim C1. When the trimmed text is not empty, `addTask` puts a new task with the
trimmed text and `completed = false` in front of the unchanged old list; hence a run
of `addTask` calls with non-blank texts from the empty list leaves the trimmed texts
newest first. -/
theorem addTask_newest_first (st : State) (t : String) (env : AddEnv) (st0 : State)
    (calls : List (String × AddEnv)) (ht : trim t ≠ "") (h0 : st0.tasks = [])
    (hcalls : ∀ c ∈ calls, trim c.1 ≠ "") :
    (addTask st t env).tasks
      = { id := generateId env.random36 env.idNow, text := trim t, completed := false,
          createdAt := env.createdNow } :: st.tasks ∧
    (run st0 (calls.map fun c => Action.addTask c.1 c.2)).tasks.map Task.text
      = (calls.map fun c => trim c.1).reverse := by
  refine ⟨?_, ?_⟩
  · rw [addTask_of_nonblank _ _ _ ht]; rfl
  · rw [run_addTasks_texts calls st0 hcalls, h0]; simp

/-- The example of the specification: "Buy milk", then "Walk dog". -/
theorem addTask_newest_first_witness :
    trim "  Walk dog " ≠ "" ∧ (State.mk [] "all" []).tasks = [] ∧
    (∀ c ∈ [("Buy milk", AddEnv.mk "0.4fzyo82mvyr" 1700000000000 1700000000000),
            ("Walk dog", AddEnv.mk "0.9k2c1x7qd3b" 1700000000500 1700000000500)],
        trim c.1 ≠ "") ∧
    ((addTask (State.mk [⟨"k0", "Buy milk", true, 1⟩] "all" []) "  Walk dog "
        (AddEnv.mk "0.9k2c1x7qd3b" 1700000000500 1700000000501)).tasks
      = [⟨"9k2c1x7qloyw3vg4", "Walk dog", false, 1700000000501⟩, ⟨"k0", "Buy milk", true, 1⟩] ∧
     (run (State.mk [] "all" [])
        [Action.addTask "Buy milk" (AddEnv.mk "0.4fzyo82mvyr" 1700000000000 1700000000000),
         Action.addTask "Walk dog"
           (AddEnv.mk "0.9k2c1x7qd3b" 1700000000500 1700000000500)]).tasks.map Task.text
      = ["Walk dog", "Buy milk"]) :=
  ⟨by decide, rfl, by decide,
    addTask_newest_first (State.mk [⟨"k0", "Buy milk", true, 1⟩] "all" []) "  Walk dog "
      (AddEnv.mk "0.9k2c1x7qd3b" 1700000000500 1700000000501) (State.mk [] "all" [])
      [("Buy milk", AddEnv.mk "0.4fzyo82mvyr" 1700000000000 1700000000000),
       ("Walk dog", AddEnv.mk "0.9k2c1x7qd3b" 1700000000500 1700000000500)]
      (by decide) rfl (by decide)⟩

/-- Claim C2, as stated, fails: two `addTask` calls during which `Math.random()` and
`Date.now()` return the same values give both tasks the identifier `4fzyo82mloyw3v28`. -/
theorem generateId_collision :
    (run ⟨[], "all", []⟩
      [.addTask "a" ⟨"0.4fzyo82mvyr", 1700000000000, 1700000000000⟩,
       .addTask "b" ⟨"0.4fzyo82mvyr", 1700000000000, 1700000000000⟩]).tasks.map Task.id
      = ["4fzyo82mloyw3v28", "4fzyo82mloyw3v28"] ∧
    ¬ ((run ⟨[], "all", []⟩
      [.addTask "a" ⟨"0.4fzyo82mvyr", 1700000000000, 1700000000000⟩,
       .addTask "b" ⟨"0.4fzyo82mvyr", 1700000000000, 1700000000000⟩]).tasks.map
        Task.id).Nodup := by
  decide

/-- Claim C2, amended. From the empty list, after any sequence of calls in which every
identifier returned by `generateId` differs from the identifiers of the tasks in the
list at the time of that `addTask` call, the identifiers in the list are pairwise
distinct. -/
theorem ids_unique_of_fresh (st : State) (actions : List Action) (hempty : st.tasks = [])
    (hfresh : freshRun st actions = true) :
    ((run st actions).tasks.map Task.id).Nodup :=
  nodup_ids_run actions st (by rw [hempty]; exact List.nodup_nil) hfresh

/-- Two additions with distinct identifiers, then a toggle, an edit to blank, a clear. -/
theorem ids_unique_of_fresh_witness :
    (State.mk [] "all" []).tasks = [] ∧
    freshRun (State.mk [] "all" [])
      [.addTask "Buy milk" ⟨"0.4fzyo82mvyr", 1700000000000, 1700000000000⟩,
       .addTask "Walk dog" ⟨"0.9k2c1x7qd3b", 1700000000500, 1700000000500⟩,
       .addTask "Read" ⟨"0.4fzyo82mvyr", 1700000000900, 1700000000900⟩,
       .toggleTask "4fzyo82mloyw3v28", .updateTaskText "9k2c1x7qloyw3vg4" " ",
       .clearCompleted] = true ∧
    ((run (State.mk [] "all" [])
      [.addTask "Buy milk" ⟨"0.4fzyo82mvyr", 1700000000000, 1700000000000⟩,
       .addTask "Walk dog" ⟨"0.9k2c1x7qd3b", 1700000000500, 1700000000500⟩,
       .addTask "Read" ⟨"0.4fzyo82mvyr", 1700000000900, 1700000000900⟩,
       .toggleTask "4fzyo82mloyw3v28", .updateTaskText "9k2c1x7qloyw3vg4" " ",
       .clearCompleted]).tasks.map Task.id).Nodup :=
  ⟨rfl, by decide, ids_unique_of_fresh _ _ rfl (by decide)⟩

/-- Claim C3. `visibleTasks` returns the tasks with `completed = false` under the Active
filter, those with `completed = true` under the Completed filter and the whole list
under All; the result keeps the order of the list, and the state after the call is the
state before it. -/
theorem visibleTasks_filter (L : List Task) (sg : Storage) :
    visibleTasks ⟨L, "active", sg⟩
      = (L.filter (fun t => t.completed = false), ⟨L, "active", sg⟩) ∧
    visibleTasks ⟨L, "completed", sg⟩
      = (L.filter (fun t => t.completed = true), ⟨L, "completed", sg⟩) ∧
    visibleTasks ⟨L, "all", sg⟩ = (L, ⟨L, "all", sg⟩) ∧
    (∀ cf, (visibleTasks ⟨L, cf, sg⟩).1.Sublist L ∧
      (visibleTasks ⟨L, cf, sg⟩).2 = ⟨L, cf, sg⟩) := by
  refine ⟨?_, ?_, ?_, ?_⟩
  · simp [visibleTasks]
  · simp [visibleTasks]
  · simp [visibleTasks]
  · intro cf
    unfold visibleTasks
    split
    · exact ⟨List.filter_sublist _, rfl⟩
    · split
      · exact ⟨List.filter_sublist _, rfl⟩
      · exact ⟨List.Sublist.refl _, rfl⟩

/-- The example of the specification: "Buy milk" and "Walk dog" added, "Buy milk"
toggled, the filter set to Completed. -/
theorem visibleTasks_filter_witness :
    (visibleTasks (run ⟨[], "all", []⟩
      [.addTask "Buy milk" ⟨"0.4fzyo82mvyr", 1700000000000, 1700000000000⟩,
       .addTask "Walk dog" ⟨"0.9k2c1x7qd3b", 1700000000500, 1700000000500⟩,
       .toggleTask "4fzyo82mloyw3v28", .setFilter "completed"])).1
      = [⟨"4fzyo82mloyw3v28", "Buy milk", true, 1700000000000⟩] :=
  congrArg Prod.fst (visibleTasks_filter
    [⟨"9k2c1x7qloyw3vg4", "Walk dog", false, 1700000000500⟩,
     ⟨"4fzyo82mloyw3v28", "Buy milk", true, 1700000000000⟩]
    (run ⟨[], "all", []⟩
      [.addTask "Buy milk" ⟨"0.4fzyo82mvyr", 1700000000000, 1700000000000⟩,
       .addTask "Walk dog" ⟨"0.9k2c1x7qd3b", 1700000000500, 1700000000500⟩,
       .toggleTask "4fzyo82mloyw3v28", .setFilter "completed"]).storage).2.1

/-- Claim C4. Saving a task list with `saveTasks` and one of the three filter tags with
`saveFilter`, in either order, then running `loadState` on the resulting storage, gives
back the same task array (same tasks, fields and order) and the same filter, so
`visibleTasks` returns what it returned before the save. -/
theorem persistence_round_trip (L : List Task) (f : String) (sg : Storage) (saved : State)
    (hf : f = "all" ∨ f = "active" ∨ f = "completed")
    (hsaved : saved = saveFilter (saveTasks ⟨L, f, sg⟩) ∨
      saved = saveTasks (saveFilter ⟨L, f, sg⟩)) :
    ∃ loaded : Loaded,
      loadState saved.storage = .ok loaded ∧
      loaded.tasks = tasksToJson L ∧
      loaded.tasks.toTasks? = some L ∧
      loaded.currentFilter = f ∧
      ∀ L2, loaded.tasks.toTasks? = some L2 →
        (visibleTasks ⟨L2, loaded.currentFilter, saved.storage⟩).1
          = (visibleTasks ⟨L, f, sg⟩).1 := by
  obtain ⟨h1, h2⟩ := getItem_saved ⟨L, f, sg⟩ saved hsaved
  have ht : loadedTasks saved.storage = tasksToJson L := loadedTasks_of_getItem _ L h1
  have hc : loadedFilter saved.storage = f := loadedFilter_of_getItem _ f h2 hf
  refine ⟨_, loadState_eq _, ht, ?_, hc, ?_⟩
  · simp only [ht, toTasks_tasksToJson]
  · intro L2 hL2
    simp only [ht, toTasks_tasksToJson, Option.some.injEq] at hL2
    subst hL2
    simp only [hc, visibleTasks]
    split
    · rfl
    · split <;> rfl

/-- Two tasks under the Active filter, saved to an empty storage and loaded again. -/
theorem persistence_round_trip_witness :
    ("active" = "all" ∨ "active" = "active" ∨ "active" = "completed") ∧
    ∃ loaded : Loaded,
      loadState (saveFilter (saveTasks
        ⟨[⟨"k1", "Walk dog", false, 2⟩, ⟨"k0", "Buy milk", true, 1⟩], "active", []⟩)).storage
          = .ok loaded ∧
      loaded.tasks = tasksToJson [⟨"k1", "Walk dog", false, 2⟩, ⟨"k0", "Buy milk", true, 1⟩] ∧
      loaded.tasks.toTasks? = some [⟨"k1", "Walk dog", false, 2⟩, ⟨"k0", "Buy milk", true, 1⟩] ∧
      loaded.currentFilter = "active" ∧
      ∀ L2, loaded.tasks.toTasks? = some L2 →
        (visibleTasks ⟨L2, loaded.currentFilter, (saveFilter (saveTasks
          ⟨[⟨"k1", "Walk dog", false, 2⟩, ⟨"k0", "Buy milk", true, 1⟩], "active", []⟩)).storage⟩).1
          = (visibleTasks
            ⟨[⟨"k1", "Walk dog", false, 2⟩, ⟨"k0", "Buy milk", true, 1⟩], "active", []⟩).1 :=
  ⟨by decide, persistence_round_trip _ _ _ _ (by decide) (Or.inl rfl)⟩

/-- Claim C5. The script departs from the claim when the stored task entry is valid
JSON of another shape: for the stored text `[true]`, which no task array serialises to,
`loadState` leaves the array `[true]` in `tasks`, and for the stored text `null` it
leaves `null` there, where the claim and the `Task[]` annotation of `tasks` ask for the
empty list. -/
theorem loadState_keeps_other_json :
    loadState [(STORAGE_KEY, "[true]")] = .ok ⟨.arr [.bool true], "all"⟩ ∧
    (∀ L : List Task, stringify L ≠ "[true]") ∧
    (Json.arr [.bool true]).toTasks? = none ∧
    Json.arr [.bool true] ≠ Json.arr [] ∧
    loadState [(STORAGE_KEY, "null")] = .ok ⟨.null, "all"⟩ ∧
    (∀ L : List Task, stringify L ≠ "null") ∧
    Json.null.toTasks? = none ∧
    Json.null ≠ Json.arr [] := by
  have hcons : ∀ (t : Task) (ts : List Task), ∃ r,
      (stringify (t :: ts)).data = lbrack :: lbrace :: r := by
    intro t ts
    obtain ⟨r, hr⟩ := stringifyElems_cons t ts []
    rw [List.append_nil] at hr
    exact ⟨r, by rw [← hr]; rfl⟩
  refine ⟨rfl, ?_, rfl, ?_, rfl, ?_, rfl, ?_⟩
  · intro L h
    have h2 : (stringify L).data = "[true]".data := by rw [h]
    cases L with
    | nil => revert h2; decide
    | cons t ts =>
      obtain ⟨r, h3⟩ := hcons t ts
      rw [h3] at h2
      have h4 : lbrace = 't' := (List.cons.inj (List.cons.inj h2).2).1
      revert h4; decide
  · intro h
    cases h
  · intro L h
    have h2 : (stringify L).data = "null".data := by rw [h]
    cases L with
    | nil => revert h2; decide
    | cons t ts =>
      obtain ⟨r, h3⟩ := hcons t ts
      rw [h3] at h2
      have h4 : lbrack = 'n' := (List.cons.inj h2).1
      revert h4; decide
  · intro h
    cases h

/-- The fallbacks `loadState` does implement. It never raises. The loaded task list is
empty whenever the stored task entry is absent, is the empty string, or is not valid
JSON text. The loaded filter is All whenever the stored filter entry is absent or is
not one of the three filter tags. -/
theorem loadState_fallback (s : Storage) :
    ∃ r : Loaded, loadState s = .ok r ∧
      (s.getItem STORAGE_KEY = none → r.tasks = .arr []) ∧
      (s.getItem STORAGE_KEY = some "" → r.tasks = .arr []) ∧
      (∀ raw e, s.getItem STORAGE_KEY = some raw → JSON.parse raw = .error e →
        r.tasks = .arr []) ∧
      (s.getItem FILTER_STORAGE_KEY ≠ some "active" →
        s.getItem FILTER_STORAGE_KEY ≠ some "completed" → r.currentFilter = "all") := by
  refine ⟨_, loadState_eq s, ?_, ?_, ?_, ?_⟩
  · intro h; simp only [loadedTasks, h]
  · intro h; simp only [loadedTasks, h, if_true]
  · intro raw e h hp
    simp only [loadedTasks, h, hp]
    split <;> rfl
  · intro h1 h2
    simp only [loadedFilter]
    cases h : s.getItem FILTER_STORAGE_KEY with
    | none => rfl
    | some f =>
      have h3 : ¬ (f = "active" ∨ f = "completed") := by
        rintro (h3 | h3)
        · exact h1 (by rw [h, h3])
        · exact h2 (by rw [h, h3])
      simp only [h3, if_false]

/-- A task entry that is not JSON and a filter entry that is not a tag. -/
theorem loadState_fallback_witness :
    JSON.parse "\x7boops" = .error .syntaxError ∧
    ∃ r : Loaded,
      loadState [(STORAGE_KEY, "\x7boops"), (FILTER_STORAGE_KEY, "done")] = .ok r ∧
      r.tasks = .arr [] ∧ r.currentFilter = "all" :=
  ⟨rfl, by
    obtain ⟨r, h, _, _, h3, h4⟩ :=
      loadState_fallback [(STORAGE_KEY, "\x7boops"), (FILTER_STORAGE_KEY, "done")]
    exact ⟨r, h, h3 "\x7boops" .syntaxError rfl rfl, h4 (by decide) (by decide)⟩⟩

/-- Claim C6. When a task of the list has the identifier and the new text trims to the
empty string, `updateTaskText` leaves the state that `deleteTask` leaves: no task with
that identifier remains and every other task stays, in the same order. -/
theorem updateTaskText_blank_eq_deleteTask (st : State) (id newText : String)
    (hmem : ∃ t ∈ st.tasks, t.id = id) (hblank : trim newText = "") :
    updateTaskText st id newText = deleteTask st id ∧
    (updateTaskText st id newText).tasks = st.tasks.filter (fun t => t.id ≠ id) ∧
    (∀ t ∈ (updateTaskText st id newText).tasks, t.id ≠ id) ∧
    (∀ t ∈ st.tasks, t.id ≠ id → t ∈ (updateTaskText st id newText).tasks) ∧
    (updateTaskText st id newText).tasks.Sublist st.tasks := by
  obtain ⟨u, hu⟩ := find_isSome_of_mem id st.tasks hmem
  have h1 : updateTaskText st id newText = deleteTask st id := by
    unfold updateTaskText
    rw [hu]
    simp [hblank]
  rw [h1]
  refine ⟨rfl, rfl, ?_, ?_, List.filter_sublist _⟩
  · intro t ht
    have := (List.mem_filter.1 ht).2
    simpa using this
  · intro t ht hne
    exact List.mem_filter.2 ⟨ht, by simpa using hne⟩

/-- Editing "Buy milk" to a blank text in a list of two tasks. -/
theorem updateTaskText_blank_eq_deleteTask_witness :
    (∃ t ∈ (State.mk [⟨"k1", "Walk dog", false, 2⟩, ⟨"k0", "Buy milk", true, 1⟩]
        "all" []).tasks, t.id = "k0") ∧
    trim "  " = "" ∧
    (updateTaskText (State.mk [⟨"k1", "Walk dog", false, 2⟩, ⟨"k0", "Buy milk", true, 1⟩]
        "all" []) "k0" "  ").tasks = [⟨"k1", "Walk dog", false, 2⟩] :=
  ⟨⟨⟨"k0", "Buy milk", true, 1⟩, by decide, rfl⟩, by decide,
    (updateTaskText_blank_eq_deleteTask
      (State.mk [⟨"k1", "Walk dog", false, 2⟩, ⟨"k0", "Buy milk", true, 1⟩] "all" [])
      "k0" "  " ⟨⟨"k0", "Buy milk", true, 1⟩, by decide, rfl⟩ (by decide)).2.1⟩

/-- Claim C7. Calling `toggleTask` twice with the same identifier gives back the task
list (every task with its original fields and position); when no task has the
identifier, one call already leaves the state as it was. -/
theorem toggleTask_involutive (st : State) (id : String) :
    (toggleTask (toggleTask st id) id).tasks = st.tasks ∧
    ((∀ t ∈ st.tasks, t.id ≠ id) → toggleTask st id = st) := by
  refine ⟨?_, toggleTask_of_absent st id⟩
  by_cases h : ∃ t ∈ st.tasks, t.id = id
  · have hf : ∀ t : Task, ({ t with completed := !t.completed } : Task).id = t.id := fun _ => rfl
    rw [toggleTask_of_present st id h, toggleTask_of_present]
    · simp only [saveTasks_tasks]
      exact updateFound_twice id _ hf (fun t => by cases t; simp) st.tasks
    · simpa using (mem_updateFound_id id _ hf st.tasks).2 h
  · have h2 : ∀ t ∈ st.tasks, t.id ≠ id := fun t ht hid => h ⟨t, ht, hid⟩
    rw [toggleTask_of_absent st id h2, toggleTask_of_absent st id h2]

/-- Toggling "Buy milk" once and twice, and toggling an identifier no task has. -/
theorem toggleTask_involutive_witness :
    (∀ t ∈ (State.mk [⟨"k1", "Walk dog", false, 2⟩, ⟨"k0", "Buy milk", false, 1⟩]
        "all" []).tasks, t.id ≠ "zz") ∧
    toggleTask (State.mk [⟨"k1", "Walk dog", false, 2⟩, ⟨"k0", "Buy milk", false, 1⟩] "all" [])
        "zz"
      = State.mk [⟨"k1", "Walk dog", false, 2⟩, ⟨"k0", "Buy milk", false, 1⟩] "all" [] ∧
    (toggleTask (State.mk [⟨"k1", "Walk dog", false, 2⟩, ⟨"k0", "Buy milk", false, 1⟩]
        "all" []) "k0").tasks
      = [⟨"k1", "Walk dog", false, 2⟩, ⟨"k0", "Buy milk", true, 1⟩] ∧
    (toggleTask (toggleTask
        (State.mk [⟨"k1", "Walk dog", false, 2⟩, ⟨"k0", "Buy milk", false, 1⟩] "all" [])
        "k0") "k0").tasks
      = [⟨"k1", "Walk dog", false, 2⟩, ⟨"k0", "Buy milk", false, 1⟩] :=
  ⟨by decide,
    (toggleTask_involutive
      (State.mk [⟨"k1", "Walk dog", false, 2⟩, ⟨"k0", "Buy milk", false, 1⟩] "all" [])
      "zz").2 (by decide),
    by decide,
    (toggleTask_involutive
      (State.mk [⟨"k1", "Walk dog", false, 2⟩, ⟨"k0", "Buy milk", false, 1⟩] "all" [])
      "k0").1⟩

/-- Claim C8. `clearCompleted` leaves the tasks with `completed = false`, in their
original order, and a second call changes nothing more. -/
theorem clearCompleted_idempotent (st : State) :
    (clearCompleted st).tasks = st.tasks.filter (fun t => t.completed = false) ∧
    (clearCompleted st).tasks.Sublist st.tasks ∧
    clearCompleted (clearCompleted st) = clearCompleted st := by
  refine ⟨?_, ?_, ?_⟩
  · simp [clearCompleted]
  · exact List.filter_sublist _
  · simp [clearCompleted, saveTasks, List.filter_filter, setItem_setItem]

/-- Clearing a list of three tasks, two of them completed. -/
theorem clearCompleted_idempotent_witness :
    (clearCompleted (State.mk
        [⟨"k2", "Read", true, 3⟩, ⟨"k1", "Walk dog", false, 2⟩, ⟨"k0", "Buy milk", true, 1⟩]
        "all" [])).tasks
      = [⟨"k1", "Walk dog", false, 2⟩] :=
  (clearCompleted_idempotent (State.mk
    [⟨"k2", "Read", true, 3⟩, ⟨"k1", "Walk dog", false, 2⟩, ⟨"k0", "Buy milk", true, 1⟩]
    "all" [])).1

/-- Claim C9. For a text that is empty or made only of whitespace, `addTask` returns the
state it was given: same task list, same length, same storage. -/
theorem addTask_blank_noop (st : State) (t : String) (env : AddEnv)
    (h : ∀ c ∈ t.data, isWhiteSpace c = true) :
    addTask st t env = st ∧ (addTask st t env).tasks.length = st.tasks.length ∧
      (addTask st t env).storage = st.storage := by
  rw [addTask_of_blank st t env (trim_of_all_ws t h)]
  exact ⟨rfl, rfl, rfl⟩

/-- Adding three spaces to a list of one task with a non-empty storage. -/
theorem addTask_blank_noop_witness :
    (∀ c ∈ "   ".data, isWhiteSpace c = true) ∧
    addTask (State.mk [⟨"k0", "Buy milk", true, 1⟩] "all" [("todo.filter.v1", "all")]) "   "
        (AddEnv.mk "0.4fzyo82mvyr" 1700000000000 1700000000000)
      = State.mk [⟨"k0", "Buy milk", true, 1⟩] "all" [("todo.filter.v1", "all")] :=
  ⟨by decide,
    (addTask_blank_noop
      (State.mk [⟨"k0", "Buy milk", true, 1⟩] "all" [("todo.filter.v1", "all")]) "   "
      (AddEnv.mk "0.4fzyo82mvyr" 1700000000000 1700000000000) (by decide)).1⟩

/-- Claim C10. If every task has a non-empty text, so has every task after any call and
after any sequence of calls, hence every task `visibleTasks` returns and every task
of the list `saveTasks` writes; the same holds in every state reached from the empty
list. -/
theorem text_never_empty (st : State) (a : Action) (actions : List Action)
    (h : TextsNonEmpty st.tasks) :
    TextsNonEmpty (step st a).tasks ∧
    TextsNonEmpty (run st actions).tasks ∧
    TextsNonEmpty (visibleTasks (run st actions)).1 ∧
    (saveTasks (run st actions)).storage.getItem STORAGE_KEY
      = some (stringify (run st actions).tasks) ∧
    (∀ st0 : State, st0.tasks = [] → TextsNonEmpty (run st0 actions).tasks) := by
  refine ⟨textsNonEmpty_step st a h, textsNonEmpty_run actions st h, ?_, ?_, ?_⟩
  · exact fun t ht => textsNonEmpty_run actions st h t (visibleTasks_subset _ t ht)
  · exact getItem_setItem _ _ _
  · intro st0 h0
    exact textsNonEmpty_run actions st0 (by rw [h0]; intro t ht; cases ht)

/-- A list of one task: an edit to a non-blank text, then an addition and an edit. -/
theorem text_never_empty_witness :
    TextsNonEmpty (State.mk [⟨"k0", "Buy milk", false, 1⟩] "all" []).tasks ∧
    TextsNonEmpty (step (State.mk [⟨"k0", "Buy milk", false, 1⟩] "all" [])
      (.updateTaskText "k0" " Buy oat milk ")).tasks ∧
    TextsNonEmpty (run (State.mk [⟨"k0", "Buy milk", false, 1⟩] "all" [])
      [.addTask " Walk dog" ⟨"0.9k2c1x7qd3b", 1700000000500, 1700000000500⟩,
       .updateTaskText "k0" "   ", .addTask "  " ⟨"0.4fzyo82mvyr", 1700000000900, 1700000000900⟩,
       .toggleTask "9k2c1x7qloyw3vg4"]).tasks :=
  ⟨by decide,
    (text_never_empty (State.mk [⟨"k0", "Buy milk", false, 1⟩] "all" [])
      (.updateTaskText "k0" " Buy oat milk ")
      [.addTask " Walk dog" ⟨"0.9k2c1x7qd3b", 1700000000500, 1700000000500⟩,
       .updateTaskText "k0" "   ", .addTask "  " ⟨"0.4fzyo82mvyr", 1700000000900, 1700000000900⟩,
       .toggleTask "9k2c1x7qloyw3vg4"] (by decide)).1,
    (text_never_empty (State.mk [⟨"k0", "Buy milk", false, 1⟩] "all" [])
      (.updateTaskText "k0" " Buy oat milk ")
      [.addTask " Walk dog" ⟨"0.9k2c1x7qd3b", 1700000000500, 1700000000500⟩,
       .updateTaskText "k0" "   ", .addTask "  " ⟨"0.4fzyo82mvyr", 1700000000900, 1700000000900⟩,
       .toggleTask "9k2c1x7qloyw3vg4"] (by decide)).2.1⟩

end Todo
